import Mathlib

/-!
# Shallow embedding of the `pagination` Go package (limit-offset)

The package lives in `limit-offset/pagination.go`.  Go strings are embedded
as `List Char`, Go's `uint` (64-bit on the targeted platforms) as `Nat`
with arithmetic reduced modulo `2 ^ 64` exactly where the source performs
uint arithmetic, and `[]interface{}` as a polymorphic `List α`.
-/

/-- Go strings, embedded as lists of characters. -/
abbrev GoStr := List Char

/-- `2 ^ 64`: the modulus of Go's `uint` arithmetic (64-bit platforms). -/
def uintSize : Nat := 2 ^ 64

/-- Go `uint` addition: wraps modulo `2 ^ 64`. -/
def uadd (a b : Nat) : Nat := (a + b) % uintSize

/-- Go `uint` subtraction: wraps modulo `2 ^ 64` (no clamping at zero). -/
def usub (a b : Nat) : Nat := (a % uintSize + (uintSize - b % uintSize)) % uintSize

/-- The decimal digit character for `n < 10`, as printed by Go's `%d` verb. -/
def digitChar (n : Nat) : Char := Char.ofNat (48 + n)

/-- Fuel-driven decimal rendering (most significant digit first). -/
def natReprAux : Nat → Nat → GoStr
  | 0, _ => []
  | fuel + 1, n =>
    if n < 10 then [digitChar n]
    else natReprAux fuel (n / 10) ++ [digitChar (n % 10)]

/-- Decimal rendering of a natural number, the embedding of `fmt`'s `%d`. -/
def natRepr (n : Nat) : GoStr := natReprAux (n + 1) n

/-- Embedding of Go's `strings.Split` with a one-character separator:
splitting the empty string yields `[""]`, and a separator occurrence at
either end contributes an empty field. -/
def splitOnChar (sep : Char) : GoStr → List GoStr
  | [] => [[]]
  | c :: cs =>
    match splitOnChar sep cs with
    | [] => [[]]
    | t :: ts => if c = sep then [] :: t :: ts else (c :: t) :: ts

/-- Embedding of Go's `strings.Join` with a one-character separator. -/
def joinSep (sep : Char) : List GoStr → GoStr
  | [] => []
  | [t] => t
  | t :: u :: ts => t ++ sep :: joinSep sep (u :: ts)

/-- Numeric value of a digit string (most significant digit first). -/
def digitsVal (s : GoStr) : Nat := s.foldl (fun a c => a * 10 + (c.toNat - 48)) 0

/-- Embedding of Go's `strconv.ParseUint(s, 10, 32)`: succeeds exactly on
non-empty all-digit strings whose value fits in 32 bits; `none` models the
returned `error`. -/
def parseUint32 (s : GoStr) : Option Nat :=
  if s = [] then none
  else if s.all Char.isDigit then
    if digitsVal s < 2 ^ 32 then some (digitsVal s) else none
  else none

/-- The `ParamPageLimit` constant: `"page[limit]"`. -/
def ParamPageLimit : GoStr := "page[limit]".toList

/-- The `ParamPageOffset` constant: `"page[offset]"`. -/
def ParamPageOffset : GoStr := "page[offset]".toList

/-- The `ParamSortBy` constant: `"sort"`. -/
def ParamSortBy : GoStr := "sort".toList

/-- The Go `Sort` type: a sort field together with its order string.
(`Sort` itself is a reserved word in Lean, hence the name `SortSpec`.) -/
structure SortSpec where
  Field : GoStr
  Order : GoStr
deriving DecidableEq, Repr

/-- The Go `Params` type: limit, offset and the sort sequence.  The Go
fields `Limit` and `Offset` have type `uint`; their representation
invariant (`< 2 ^ 64`) is carried as a hypothesis where it matters.
The Go field `Sort` is named `Sorts` here, `Sort` being reserved. -/
structure Params where
  Limit : Nat
  Offset : Nat
  Sorts : List SortSpec
deriving DecidableEq, Repr

/-- The Go `Links` type; an empty string models an unset (omitted) link. -/
structure Links where
  First : GoStr
  Prev : GoStr
  Next : GoStr
  Last : GoStr
deriving DecidableEq, Repr

/-- The Go `Response` type, generic over the item type (the Go source uses
`[]interface{}` only for lack of generics). -/
structure Response (α : Type) where
  Data : List α
  Links : Links
deriving DecidableEq, Repr

/-- `Params.SortURL`: either the empty string (no sorts) or `sort=`
followed by comma-joined `field.order` tokens in sequence order. -/
def Params.SortURL (p : Params) : GoStr :=
  if p.Sorts.length > 0 then
    "sort=".toList ++ joinSep ',' (p.Sorts.map fun s => s.Field ++ '.' :: s.Order)
  else []

/-- `Params.Query`: the SQL fragment `" LIMIT <limit+1> OFFSET <offset> "`,
followed by `ORDER BY` and comma-joined `field order` pairs when sorts are
present.  The `+ 1` is uint addition, hence `uadd`. -/
def Params.Query (p : Params) : GoStr :=
  let query := " LIMIT ".toList ++ natRepr (uadd p.Limit 1) ++
    " OFFSET ".toList ++ natRepr p.Offset ++ " ".toList
  if p.Sorts.length > 0 then
    query ++ "ORDER BY ".toList ++
      joinSep ',' (p.Sorts.map fun s => s.Field ++ ' ' :: s.Order)
  else query

/-- One candidate token of the `sort` parameter: split on `.`; exactly two
parts yield a `SortSpec`, anything else is discarded (`none`). -/
def sortToken (tok : GoStr) : Option SortSpec :=
  match splitOnChar '.' tok with
  | [f, o] => some ⟨f, o⟩
  | _ => none

/-- The sort-parsing loop of `FindParams`: split on commas, keep the
tokens that split on `.` into exactly two parts, in encounter order. -/
def parseSort (s : GoStr) : List SortSpec :=
  (splitOnChar ',' s).filterMap sortToken

/-- The three query-string values read by `FindParams`; Go's
`req.URL.Query().Get` returns `""` for an absent parameter, so an empty
string models absence. -/
structure Request where
  limit : GoStr
  offset : GoStr
  sort : GoStr

/-- `FindParams`: defaults first, then limit, offset and sort in that
order, returning early (with the params built so far) on a parse error.
The Boolean result models the returned `error` (`true` = non-nil). -/
def FindParams (req : Request) (defaultOffset defaultLimit : Nat) : Params × Bool :=
  let params : Params := ⟨defaultLimit, defaultOffset, []⟩
  match (if req.limit = [] then some params.Limit else parseUint32 req.limit) with
  | none => (params, true)
  | some l =>
    match (if req.offset = [] then some params.Offset else parseUint32 req.offset) with
    | none => ({ params with Limit := l }, true)
    | some o =>
      let sorts := if req.sort = [] then [] else parseSort req.sort
      ({ Limit := l, Offset := o, Sorts := sorts }, false)

/-- `buildLinks`: first link always, next link when the data size strictly
exceeds the limit (offset advanced by uint addition), prev link when the
offset is positive (offset regressed by uint subtraction), sort suffix
appended with `&` whenever present; the last link is never set. -/
def buildLinks (baseURL : GoStr) (params : Params) (dataSize : Nat) : Links :=
  let sortURL := params.SortURL
  let first0 := baseURL ++ '?' :: ParamPageLimit ++ '=' :: natRepr params.Limit ++
    '&' :: ParamPageOffset ++ '=' :: natRepr 0
  let first := if sortURL ≠ [] then first0 ++ '&' :: sortURL else first0
  let next :=
    if dataSize > params.Limit then
      let next0 := baseURL ++ '?' :: ParamPageLimit ++ '=' :: natRepr params.Limit ++
        '&' :: ParamPageOffset ++ '=' :: natRepr (uadd params.Offset params.Limit)
      if sortURL ≠ [] then next0 ++ '&' :: sortURL else next0
    else []
  let prev :=
    if params.Offset > 0 then
      let prev0 := baseURL ++ '?' :: ParamPageLimit ++ '=' :: natRepr params.Limit ++
        '&' :: ParamPageOffset ++ '=' :: natRepr (usub params.Offset params.Limit)
      if sortURL ≠ [] then prev0 ++ '&' :: sortURL else prev0
    else []
  { First := first, Prev := prev, Next := next, Last := [] }

/-- `buildData`: drop the (sentinel) last item when the data size strictly
exceeds the limit (`data[:len(data)-1]`), otherwise keep all items. -/
def buildData {α : Type} (data : List α) (params : Params) : List α :=
  if data.length > params.Limit then data.dropLast else data

/-- `Paginate`: the trimmed data plus the navigation links. -/
def Paginate {α : Type} (data : List α) (baseURL : GoStr) (params : Params) : Response α :=
  { Data := buildData data params, Links := buildLinks baseURL params data.length }

/-- Strips the leading `sort=` marker (five characters) when present; used
to feed `Params.SortURL` output back into the sort-parsing logic. -/
def dropSortKey (s : GoStr) : GoStr :=
  if s.take 5 = "sort=".toList then s.drop 5 else s

/-! ## Helper lemmas -/

theorem splitOnChar_ne_nil (sep : Char) (s : GoStr) : splitOnChar sep s ≠ [] := by
  induction s with
  | nil => simp [splitOnChar]
  | cons c cs ih =>
    simp only [splitOnChar]
    cases h : splitOnChar sep cs with
    | nil => simp
    | cons t ts => by_cases hc : c = sep <;> simp [hc]

theorem splitOnChar_of_forall_ne (sep : Char) (t : GoStr) (h : sep ∉ t) :
    splitOnChar sep t = [t] := by
  induction t with
  | nil => rfl
  | cons c cs ih =>
    rw [List.mem_cons] at h
    push_neg at h
    simp only [splitOnChar, ih h.2]
    simp [Ne.symm h.1]

theorem splitOnChar_append (sep : Char) (t rest : GoStr) (h : sep ∉ t) :
    splitOnChar sep (t ++ sep :: rest) = t :: splitOnChar sep rest := by
  induction t with
  | nil =>
    simp only [List.nil_append, splitOnChar]
    cases hr : splitOnChar sep rest with
    | nil => exact absurd hr (splitOnChar_ne_nil sep rest)
    | cons a as => simp
  | cons c cs ih =>
    rw [List.mem_cons] at h
    push_neg at h
    simp only [List.cons_append, splitOnChar, List.append_eq]
    rw [ih h.2]
    simp [Ne.symm h.1]

theorem splitOnChar_joinSep (sep : Char) :
    ∀ ts : List GoStr, ts ≠ [] → (∀ t ∈ ts, sep ∉ t) →
      splitOnChar sep (joinSep sep ts) = ts
  | [], hne, _ => absurd rfl hne
  | [t], _, h => splitOnChar_of_forall_ne sep t (h t (by simp))
  | t :: u :: vs, _, h => by
    simp only [joinSep]
    rw [splitOnChar_append sep t _ (h t (by simp)),
      splitOnChar_joinSep sep (u :: vs) (by simp)
        (fun x hx => h x (List.mem_cons_of_mem _ hx))]

theorem sortToken_encode (f o : GoStr) (hf : '.' ∉ f) (ho : '.' ∉ o) :
    sortToken (f ++ '.' :: o) = some ⟨f, o⟩ := by
  rw [sortToken, splitOnChar_append _ f o hf, splitOnChar_of_forall_ne _ o ho]

theorem SortURL_eq_nil_iff (p : Params) : p.SortURL = [] ↔ p.Sorts = [] := by
  cases hp : p.Sorts with
  | nil => simp [Params.SortURL, hp]
  | cons s ss => simp [Params.SortURL, hp]

/-! ## Claim theorems -/

/-- C2: for every `Params`, `Query` returns exactly a space, `LIMIT`, the
limit plus one (uint addition), `OFFSET`, the offset, a trailing space,
and — only when the sort sequence is non-empty — `ORDER BY` followed by
the comma-joined `field order` pairs in sequence order; in particular
`{limit 10, offset 20, sorts []}` yields `" LIMIT 11 OFFSET 20 "`. -/
theorem C2_query_fragment :
    (∀ p : Params, p.Query =
      " LIMIT ".toList ++ natRepr (uadd p.Limit 1) ++ " OFFSET ".toList ++
        natRepr p.Offset ++ " ".toList ++
        (if p.Sorts = [] then [] else
          "ORDER BY ".toList ++
            joinSep ',' (p.Sorts.map fun s => s.Field ++ ' ' :: s.Order))) ∧
    Params.Query ⟨10, 20, []⟩ = " LIMIT 11 OFFSET 20 ".toList := by
  constructor
  · intro p
    by_cases hs : p.Sorts = [] <;>
      simp [Params.Query, hs, List.length_pos, List.append_assoc]
  · decide

/-- C8: the first link is always present, built from the base path, the
limit, an offset fixed at `0`, and the sort suffix (with `&`) exactly when
sorts are non-empty; the last link is never present. -/
theorem C8_first_last_links {α : Type} (data : List α) (baseURL : GoStr) (p : Params) :
    (Paginate data baseURL p).Links.First =
      baseURL ++ '?' :: ParamPageLimit ++ '=' :: natRepr p.Limit ++
        '&' :: ParamPageOffset ++ '=' :: natRepr 0 ++
        (if p.Sorts = [] then [] else '&' :: p.SortURL) ∧
    (Paginate data baseURL p).Links.Last = [] := by
  refine ⟨?_, rfl⟩
  by_cases hs : p.Sorts = []
  · have h0 : p.SortURL = [] := (SortURL_eq_nil_iff p).mpr hs
    simp [Paginate, buildLinks, h0, hs]
  · have h0 : p.SortURL ≠ [] := fun e => hs ((SortURL_eq_nil_iff p).mp e)
    simp [Paginate, buildLinks, h0, hs, List.append_assoc]

/-- C9: the page builder is total: for every input shape the returned data
is either the input with exactly the last item dropped (when the count
strictly exceeds the limit) or the input unchanged, its length is
well-defined accordingly, and the slice operation's bound is in range
(the guard forces a non-empty slice whenever the trim runs). -/
theorem C9_paginate_total {α : Type} (data : List α) (baseURL : GoStr) (p : Params) :
    (Paginate data baseURL p).Data =
      (if p.Limit < data.length then data.dropLast else data) ∧
    (Paginate data baseURL p).Data.length =
      (if p.Limit < data.length then data.length - 1 else data.length) ∧
    (p.Limit < data.length → 1 ≤ data.length) := by
  refine ⟨?_, ?_, fun h => by omega⟩
  · simp [Paginate, buildData]
  · by_cases h : p.Limit < data.length <;>
      simp [Paginate, buildData, h, List.length_dropLast]

/-- C9 witness: a concrete corner instance — empty data with zero limit
produces the untouched empty data. -/
theorem C9_paginate_total_witness :
    (Paginate ([] : List Nat) [] ⟨0, 0, []⟩).Data = [] ∧
    (Paginate ([] : List Nat) [] ⟨0, 0, []⟩).Data.length = 0 := by
  have h := C9_paginate_total ([] : List Nat) [] ⟨0, 0, []⟩
  exact ⟨h.1.trans (by decide), h.2.1.trans (by decide)⟩

/-- C10: a sort token with exactly one period and an empty part on either
side (`".asc"`, `"name."`, `"."`) splits into exactly two parts and is
accepted as a `SortSpec` with empty field and/or order, not discarded; the
query and sort-URL renderers embed those empty strings verbatim. -/
theorem C10_empty_sort_parts :
    sortToken ".asc".toList = some ⟨[], "asc".toList⟩ ∧
    sortToken "name.".toList = some ⟨"name".toList, []⟩ ∧
    sortToken ".".toList = some ⟨[], []⟩ ∧
    FindParams ⟨[], [], ".asc,name.,.".toList⟩ 0 0 =
      (⟨0, 0, [⟨[], "asc".toList⟩, ⟨"name".toList, []⟩, ⟨[], []⟩]⟩, false) ∧
    Params.Query ⟨5, 0, [⟨[], "asc".toList⟩]⟩ =
      " LIMIT 6 OFFSET 0 ORDER BY  asc".toList ∧
    Params.SortURL ⟨5, 0, [⟨"name".toList, []⟩]⟩ = "sort=name.".toList := by
  decide

/-- C1: sentinel pairing — when the untrimmed count strictly exceeds the
limit, exactly the last item is dropped and the next link is present with
offset advanced by the limit (uint addition); otherwise all items are kept
unchanged and the next link is absent. -/
theorem C1_sentinel_pairing {α : Type} (data : List α) (baseURL : GoStr) (p : Params) :
    (p.Limit < data.length →
      (Paginate data baseURL p).Data = data.dropLast ∧
      (Paginate data baseURL p).Links.Next =
        baseURL ++ '?' :: ParamPageLimit ++ '=' :: natRepr p.Limit ++
          '&' :: ParamPageOffset ++ '=' :: natRepr (uadd p.Offset p.Limit) ++
          (if p.Sorts = [] then [] else '&' :: p.SortURL)) ∧
    (data.length ≤ p.Limit →
      (Paginate data baseURL p).Data = data ∧
      (Paginate data baseURL p).Links.Next = []) := by
  constructor
  · intro h
    refine ⟨by simp [Paginate, buildData, h], ?_⟩
    by_cases hs : p.Sorts = []
    · have h0 : p.SortURL = [] := (SortURL_eq_nil_iff p).mpr hs
      simp [Paginate, buildLinks, h, h0, hs]
    · have h0 : p.SortURL ≠ [] := fun e => hs ((SortURL_eq_nil_iff p).mp e)
      simp [Paginate, buildLinks, h, h0, hs, List.append_assoc]
  · intro h
    have h' : ¬ p.Limit < data.length := not_lt.mpr h
    exact ⟨by simp [Paginate, buildData, h'], by simp [Paginate, buildLinks, h']⟩

/-- C1 witness: six items with limit 5 and offset 0 — the sixth (sentinel)
item is dropped and the next link advances the offset to 5. -/
theorem C1_sentinel_pairing_witness :
    (Paginate [1, 2, 3, 4, 5, 6] "/sample".toList (⟨5, 0, []⟩ : Params)).Data =
      [1, 2, 3, 4, 5] ∧
    (Paginate [1, 2, 3, 4, 5, 6] "/sample".toList (⟨5, 0, []⟩ : Params)).Links.Next =
      "/sample?page[limit]=5&page[offset]=5".toList := by
  have h := (C1_sentinel_pairing [1, 2, 3, 4, 5, 6] "/sample".toList ⟨5, 0, []⟩).1
    (by decide)
  exact ⟨h.1.trans (by decide), h.2.trans (by decide)⟩

/-- C4: the prev link is present iff the offset is positive; when present
its offset field is the uint difference offset − limit (wrapping, not
clamped), and for `0 < offset < limit` that value is the wrapped-around
`offset + 2 ^ 64 − limit`, which is not zero. -/
theorem C4_prev_link {α : Type} (data : List α) (baseURL : GoStr) (p : Params)
    (hL : p.Limit < uintSize) (hO : p.Offset < uintSize) :
    ((Paginate data baseURL p).Links.Prev ≠ [] ↔ 0 < p.Offset) ∧
    (0 < p.Offset →
      (Paginate data baseURL p).Links.Prev =
        baseURL ++ '?' :: ParamPageLimit ++ '=' :: natRepr p.Limit ++
          '&' :: ParamPageOffset ++ '=' :: natRepr (usub p.Offset p.Limit) ++
          (if p.Sorts = [] then [] else '&' :: p.SortURL)) ∧
    (0 < p.Offset → p.Offset < p.Limit →
      usub p.Offset p.Limit = p.Offset + (uintSize - p.Limit) ∧
      usub p.Offset p.Limit ≠ 0) := by
  refine ⟨?_, ?_, fun h1 h2 => ?_⟩
  · by_cases ho : 0 < p.Offset
    · simp only [Paginate, buildLinks, if_pos ho]
      by_cases hs : p.SortURL = [] <;> simp [hs, ho]
    · simp [Paginate, buildLinks, if_neg ho, ho]
  · intro ho
    by_cases hs : p.Sorts = []
    · have h0 : p.SortURL = [] := (SortURL_eq_nil_iff p).mpr hs
      simp [Paginate, buildLinks, ho, h0, hs]
    · have h0 : p.SortURL ≠ [] := fun e => hs ((SortURL_eq_nil_iff p).mp e)
      simp [Paginate, buildLinks, ho, h0, hs, List.append_assoc]
  · have hmod : p.Offset % uintSize = p.Offset := Nat.mod_eq_of_lt hO
    have hmod2 : p.Limit % uintSize = p.Limit := Nat.mod_eq_of_lt hL
    have hlt : p.Offset + (uintSize - p.Limit) < uintSize := by omega
    constructor
    · rw [usub, hmod, hmod2, Nat.mod_eq_of_lt hlt]
    · rw [usub, hmod, hmod2, Nat.mod_eq_of_lt hlt]
      omega

/-- C4 witness: offset 3, limit 5 — the prev link is present and its
offset is the wrapped value `2 ^ 64 − 2`, not a clamped `0`. -/
theorem C4_prev_link_witness :
    (Paginate ([] : List Nat) "/u".toList (⟨5, 3, []⟩ : Params)).Links.Prev =
      "/u?page[limit]=5&page[offset]=18446744073709551614".toList ∧
    usub 3 5 = 18446744073709551614 := by
  have h := C4_prev_link ([] : List Nat) "/u".toList ⟨5, 3, []⟩
    (by decide) (by decide)
  exact ⟨(h.2.1 (by decide)).trans (by decide), by decide⟩

/-- C3 counterexample: `4294967296 = 2 ^ 32` is a well-formed non-negative
integer string, yet `FindParams` rejects it (ParseUint is called with bit
size 32) and returns the defaults together with an error. -/
theorem C3_counterexample :
    FindParams ⟨"4294967296".toList, [], []⟩ 0 0 = (⟨0, 0, []⟩, true) ∧
    "4294967296".toList ≠ [] ∧
    "4294967296".toList.all Char.isDigit = true := by
  decide

/-- C3 (amended): for all non-empty digit strings whose values are below
`2 ^ 32`, extraction yields exactly those values; an absent limit or
offset parameter falls back to the caller-supplied default exactly. -/
theorem C3_extract_exact (s t : GoStr) (defOff defLim : Nat)
    (hs : s ≠ []) (hsd : s.all Char.isDigit = true) (hsv : digitsVal s < 2 ^ 32)
    (ht : t ≠ []) (htd : t.all Char.isDigit = true) (htv : digitsVal t < 2 ^ 32) :
    FindParams ⟨s, t, []⟩ defOff defLim = (⟨digitsVal s, digitsVal t, []⟩, false) ∧
    FindParams ⟨[], t, []⟩ defOff defLim = (⟨defLim, digitsVal t, []⟩, false) ∧
    FindParams ⟨s, [], []⟩ defOff defLim = (⟨digitsVal s, defOff, []⟩, false) ∧
    FindParams ⟨[], [], []⟩ defOff defLim = (⟨defLim, defOff, []⟩, false) := by
  norm_num at hsv htv
  have hps : parseUint32 s = some (digitsVal s) := by
    simp [parseUint32, hs, hsd, hsv]
  have hpt : parseUint32 t = some (digitsVal t) := by
    simp [parseUint32, ht, htd, htv]
  refine ⟨?_, ?_, ?_, ?_⟩ <;> simp [FindParams, hs, ht, hps, hpt]

/-- C3 witness: limit 7 and offset 13 parse exactly; with defaults 1/2 for
offset/limit the absent cases fall back to those defaults. -/
theorem C3_extract_exact_witness :
    FindParams ⟨"7".toList, "13".toList, []⟩ 1 2 = (⟨7, 13, []⟩, false) ∧
    FindParams ⟨[], [], []⟩ 1 2 = (⟨2, 1, []⟩, false) := by
  have h := C3_extract_exact "7".toList "13".toList 1 2
    (by decide) (by decide) (by decide) (by decide) (by decide) (by decide)
  exact ⟨h.1.trans (by decide), h.2.2.2⟩

/-- C5: a present sort parameter is split on commas; each token is split
on periods; a token with exactly two parts contributes its `SortSpec` (in
encounter order, direction as given), any other token is discarded without
affecting its neighbours, and no error is produced. -/
theorem C5_sort_token_handling (s : GoStr) (defOff defLim : Nat) (hs : s ≠ []) :
    FindParams ⟨[], [], s⟩ defOff defLim =
      (⟨defLim, defOff, (splitOnChar ',' s).filterMap sortToken⟩, false) ∧
    (∀ tok f o : GoStr, splitOnChar '.' tok = [f, o] → sortToken tok = some ⟨f, o⟩) ∧
    (∀ tok : GoStr, (¬ ∃ f o : GoStr, splitOnChar '.' tok = [f, o]) →
      sortToken tok = none) ∧
    (∀ (ts us : List GoStr) (tok : GoStr), sortToken tok = none →
      List.filterMap sortToken (ts ++ tok :: us) =
        List.filterMap sortToken ts ++ List.filterMap sortToken us) := by
  refine ⟨by simp [FindParams, hs, parseSort], fun tok f o h => by simp [sortToken, h],
    fun tok h => ?_, fun ts us tok h => by simp [List.filterMap_append, h]⟩
  rw [sortToken]
  rcases hsp : splitOnChar '.' tok with _ | ⟨a, _ | ⟨b, _ | ⟨c, cs⟩⟩⟩ <;>
    first
      | rfl
      | exact absurd ⟨a, b, hsp⟩ h

/-- C5 witness: a malformed middle token is dropped while its two
well-formed neighbours survive in order, with no error. -/
theorem C5_sort_token_handling_witness :
    FindParams ⟨[], [], "a.asc,bad,b.desc".toList⟩ 0 0 =
      (⟨0, 0, [⟨"a".toList, "asc".toList⟩, ⟨"b".toList, "desc".toList⟩]⟩, false) := by
  have h := (C5_sort_token_handling "a.asc,bad,b.desc".toList 0 0 (by decide)).1
  exact h.trans (by decide)

/-- C7 counterexample: the offset string `"4294967296"` denotes a
non-negative integer (it is all digits, value `2 ^ 32`), yet `FindParams`
returns an error for it, because ParseUint is called with bit size 32. -/
theorem C7_counterexample :
    (FindParams ⟨[], "4294967296".toList, []⟩ 0 0).2 = true ∧
    "4294967296".toList.all Char.isDigit = true ∧
    digitsVal "4294967296".toList = 4294967296 := by
  decide

/-- C7 (amended): an error is returned iff the limit or offset parameter
is present but not parseable as a non-negative integer below `2 ^ 32`; on
a limit failure the defaults are returned alongside the error, and on an
offset failure the already-parsed (or defaulted) limit is kept while the
offset and sorts stay at their defaults. -/
theorem C7_error_contract (req : Request) (defOff defLim : Nat) :
    ((FindParams req defOff defLim).2 = true ↔
      (req.limit ≠ [] ∧ parseUint32 req.limit = none) ∨
      (req.offset ≠ [] ∧ parseUint32 req.offset = none)) ∧
    (req.limit ≠ [] → parseUint32 req.limit = none →
      FindParams req defOff defLim = (⟨defLim, defOff, []⟩, true)) ∧
    (∀ l : Nat, ((req.limit = [] ∧ l = defLim) ∨ parseUint32 req.limit = some l) →
      req.offset ≠ [] → parseUint32 req.offset = none →
      FindParams req defOff defLim = (⟨l, defOff, []⟩, true)) := by
  refine ⟨?_, fun h1 h2 => by simp [FindParams, h1, h2], fun l hl h1 h2 => ?_⟩
  · by_cases hl : req.limit = []
    · by_cases ho : req.offset = []
      · simp [FindParams, hl, ho]
      · rcases hpo : parseUint32 req.offset with _ | o <;>
          simp [FindParams, hl, ho, hpo]
    · rcases hpl : parseUint32 req.limit with _ | v
      · simp [FindParams, hl, hpl]
      · by_cases ho : req.offset = []
        · simp [FindParams, hl, ho, hpl]
        · rcases hpo : parseUint32 req.offset with _ | o <;>
            simp [FindParams, hl, ho, hpl, hpo]
  · rcases hl with ⟨he, hd⟩ | hp
    · subst hd
      simp [FindParams, he, h1, h2]
    · have hne : req.limit ≠ [] := by
        intro e
        rw [e] at hp
        simp [parseUint32] at hp
      simp [FindParams, hne, hp, h1, h2]

/-- C7 witness: limit `"5"` parses, offset `"abc"` fails — the error comes
back with the parsed limit, the default offset, and no sorts. -/
theorem C7_error_contract_witness :
    FindParams ⟨"5".toList, "abc".toList, []⟩ 1 2 = (⟨5, 1, []⟩, true) := by
  exact (C7_error_contract ⟨"5".toList, "abc".toList, []⟩ 1 2).2.2 5
    (Or.inr (by decide)) (by decide) (by decide)

theorem dropSortKey_append (X : GoStr) : dropSortKey ("sort=".toList ++ X) = X := by
  have h5 : ("sort=".toList).length = 5 := rfl
  rw [dropSortKey, ← h5, List.take_left, if_pos rfl, List.drop_left]

theorem filterMap_sortToken_map (l : List SortSpec)
    (h : ∀ s ∈ l, '.' ∉ s.Field ∧ '.' ∉ s.Order) :
    (l.map fun s => s.Field ++ '.' :: s.Order).filterMap sortToken = l := by
  induction l with
  | nil => rfl
  | cons s ss ih =>
    have hs := h s (by simp)
    simp [List.filterMap_cons, sortToken_encode s.Field s.Order hs.1 hs.2,
      ih fun x hx => h x (List.mem_cons_of_mem _ hx)]

/-- C6: for every sorts sequence of non-empty field and order strings free
of commas and periods, feeding `SortURL`'s output — with the `sort=`
marker stripped — back through the extractor's sort parsing reproduces the
sequence exactly; and `SortURL` of an empty sorts sequence is empty. -/
theorem C6_sort_roundtrip (p : Params)
    (h : ∀ s ∈ p.Sorts, s.Field ≠ [] ∧ s.Order ≠ [] ∧
      ',' ∉ s.Field ∧ '.' ∉ s.Field ∧ ',' ∉ s.Order ∧ '.' ∉ s.Order) :
    parseSort (dropSortKey p.SortURL) = p.Sorts ∧
    (p.Sorts = [] → p.SortURL = []) := by
  refine ⟨?_, fun e => (SortURL_eq_nil_iff p).mpr e⟩
  cases hp : p.Sorts with
  | nil =>
    rw [(SortURL_eq_nil_iff p).mpr hp]
    decide
  | cons s ss =>
    have hlen : p.Sorts.length > 0 := by rw [hp]; simp
    have hmem : ∀ t ∈ p.Sorts.map (fun s => s.Field ++ '.' :: s.Order), ',' ∉ t := by
      intro t ht
      rw [List.mem_map] at ht
      obtain ⟨x, hx, rfl⟩ := ht
      have hx' := h x hx
      simp [List.mem_append, hx'.2.2.1, hx'.2.2.2.2.1]
    have hne : p.Sorts.map (fun s => s.Field ++ '.' :: s.Order) ≠ [] := by
      rw [hp]; simp
    rw [Params.SortURL, if_pos hlen, dropSortKey_append, parseSort,
      splitOnChar_joinSep ',' _ hne hmem,
      filterMap_sortToken_map p.Sorts fun x hx => ⟨(h x hx).2.2.2.1, (h x hx).2.2.2.2.2⟩,
      hp]

/-- C6 witness: the two-element sorts sequence from the spec's example
survives the render-then-parse round trip, and the empty sequence renders
to the empty string. -/
theorem C6_sort_roundtrip_witness :
    parseSort (dropSortKey (Params.SortURL ⟨10, 0,
      [⟨"first_name".toList, "asc".toList⟩, ⟨"created_at".toList, "desc".toList⟩]⟩)) =
      [⟨"first_name".toList, "asc".toList⟩, ⟨"created_at".toList, "desc".toList⟩] ∧
    Params.SortURL ⟨10, 0, []⟩ = [] := by
  have h := C6_sort_roundtrip ⟨10, 0,
    [⟨"first_name".toList, "asc".toList⟩, ⟨"created_at".toList, "desc".toList⟩]⟩
    (by decide)
  have h2 := C6_sort_roundtrip ⟨10, 0, []⟩ (by decide)
  exact ⟨h.1, h2.2 rfl⟩
